import Mathlib

/-!
Shallow embedding of the jarvis_backend request-orchestration pipeline
(intent classification, task planning, step execution, skill dispatch,
memory persistence) together with theorems checking the specification
claims against the embedded code.

Python strings are modelled as lists of characters; Python dicts flowing
between components are modelled by a JSON value type; the LLM completion
capability is an oracle parameter of type Str → Str; the relational and
vector stores are modelled as lists with explicit, possibly failing
insert operations.  Confidence floats take values in the finite set
0.5/0.7/0.8/0.85/0.9/0.95 in the source and are modelled scaled by 100
as naturals, which preserves every comparison the code performs.
-/

namespace Jarvis

/-- Python strings are modelled as lists of characters. -/
abbrev Str := List Char

/-- The left-brace character, kept out of literals. -/
def lbrace : Char := Char.ofNat 123

/-- The right-brace character, kept out of literals. -/
def rbrace : Char := Char.ofNat 125

/-- The single-quote character, kept out of literals. -/
def squote : Char := Char.ofNat 39

/-- The backtick character, kept out of literals. -/
def btick : Char := Char.ofNat 96

/-- Python str.lower on the ASCII fragment the pipeline manipulates. -/
def lowerStr (s : Str) : Str := s.map Char.toLower

/-- Whether the first list is an initial segment of the second
(Python str.startswith). -/
def leadsWith : Str → Str → Bool
  | [], _ => true
  | _ :: _, [] => false
  | p :: ps, c :: cs => p == c && leadsWith ps cs

/-- Python substring containment, `pat in s`. -/
def containsSub (pat : Str) : Str → Bool
  | [] => leadsWith pat []
  | c :: cs => leadsWith pat (c :: cs) || containsSub pat cs

/-- Python `s.split(sep, 1)` in the case the separator occurs: the text
before and after the first occurrence of `sep`; `none` when `sep` does
not occur (in the source that case is guarded by a containment test). -/
def splitOnce (sep : Str) : Str → Option (Str × Str)
  | [] => if leadsWith sep [] then some ([], []) else none
  | c :: cs =>
    if leadsWith sep (c :: cs) then some ([], (c :: cs).drop sep.length)
    else
      match splitOnce sep cs with
      | some (a, b) => some (c :: a, b)
      | none => none

/-- Python default whitespace set (ASCII fragment). -/
def isSpaceCh (c : Char) : Bool :=
  c == ' ' || c == '\t' || c == '\n' || c == '\r' ||
    c == Char.ofNat 11 || c == Char.ofNat 12

/-- Python `s.strip()`. -/
def stripWS (s : Str) : Str :=
  ((s.dropWhile isSpaceCh).reverse.dropWhile isSpaceCh).reverse

/-- Python `s.strip(chars)`: remove characters of the set from both ends. -/
def stripSet (set : List Char) (s : Str) : Str :=
  ((s.dropWhile (set.contains ·)).reverse.dropWhile (set.contains ·)).reverse

/-- Helper for `wordsOf`, carrying the (reversed) current word. -/
def wordsAux : Str → Str → List Str
  | [], acc => if acc.isEmpty then [] else [acc.reverse]
  | c :: cs, acc =>
    if isSpaceCh c then
      if acc.isEmpty then wordsAux cs [] else acc.reverse :: wordsAux cs []
    else wordsAux cs (c :: acc)

/-- Python `s.split()`: whitespace-separated words, no empty items. -/
def wordsOf (s : Str) : List Str := wordsAux s []

/-- Python `sep.join(items)`. -/
def joinSep (sep : Str) : List Str → Str
  | [] => []
  | [w] => w
  | w :: ws => w ++ sep ++ joinSep sep ws

/-- JSON-like values: the Python dict/list/str/num/bool/None data that
flows between the pipeline components.  Numbers are restricted to the
integers, the only numeric values the embedded code constructs. -/
inductive Json where
  | null : Json
  | jbool : Bool → Json
  | jnum : Int → Json
  | jstr : Str → Json
  | jarr : List Json → Json
  | jobj : List (Str × Json) → Json

/-- First-match association-list lookup (Python dict lookup for the
string-keyed dicts the pipeline builds, which have unique keys). -/
def alookup {α : Type} : List (Str × α) → Str → Option α
  | [], _ => none
  | (k, v) :: rest, key => if k == key then some v else alookup rest key

/-- Field access on a JSON object; `none` on missing field or non-object. -/
def jget (j : Json) (key : Str) : Option Json :=
  match j with
  | .jobj fields => alookup fields key
  | _ => none

/-- String-typed field access, used to state concrete observations at a
type with decidable equality. -/
def jgetStr (j : Json) (key : Str) : Option Str :=
  match jget j key with
  | some (.jstr s) => some s
  | _ => none

/-- Bool-typed field access. -/
def jgetBool (j : Json) (key : Str) : Option Bool :=
  match jget j key with
  | some (.jbool b) => some b
  | _ => none

/-- Python truthiness of an optional JSON value (`dict.get` result). -/
def truthy : Option Json → Bool
  | none => false
  | some .null => false
  | some (.jbool b) => b
  | some (.jnum n) => n != 0
  | some (.jstr s) => !s.isEmpty
  | some (.jarr xs) => !xs.isEmpty
  | some (.jobj fs) => !fs.isEmpty

/-- JSON whitespace accepted between tokens by `json.loads`. -/
def isJsonWS (c : Char) : Bool :=
  c == ' ' || c == '\t' || c == '\n' || c == '\r'

/-- Decimal digits to a natural number (most significant first). -/
def digitsToNat (ds : Str) : Nat :=
  ds.foldl (fun acc c => acc * 10 + (c.toNat - 48)) 0

/-- Parse the body of a JSON string after the opening quote, returning
the decoded characters and the rest of the input.  Escapes cover the
forms the pipeline round-trips; unicode escapes are rejected, which
surfaces as a parse failure exactly like a `json.loads` error. -/
def parseStringBody : Str → Option (Str × Str)
  | [] => none
  | '\\' :: [] => none
  | '\\' :: e :: cs =>
    let ch : Option Char :=
      if e == 'n' then some '\n'
      else if e == 't' then some '\t'
      else if e == 'r' then some '\r'
      else if e == 'b' then some (Char.ofNat 8)
      else if e == 'f' then some (Char.ofNat 12)
      else if e == '"' then some '"'
      else if e == '\\' then some '\\'
      else if e == '/' then some '/'
      else none
    match ch with
    | none => none
    | some c =>
      match parseStringBody cs with
      | some (s, r) => some (c :: s, r)
      | none => none
  | c :: cs =>
    if c == '"' then some ([], cs)
    else
      match parseStringBody cs with
      | some (s, r) => some (c :: s, r)
      | none => none

/-- Parse a JSON integer (optional minus and digits); fractional and
exponent forms are rejected, which the embedding treats as a parse
failure (the embedded code never produces them). -/
def parseNumber (cs : Str) : Option (Json × Str) :=
  let (neg, rest) :=
    match cs with
    | '-' :: r => (true, r)
    | r => (false, r)
  let ds := rest.takeWhile (fun c => c.isDigit)
  if ds.isEmpty then none
  else
    let after := rest.drop ds.length
    match after with
    | '.' :: _ => none
    | 'e' :: _ => none
    | 'E' :: _ => none
    | _ =>
      let n : Int := Int.ofNat (digitsToNat ds)
      some (.jnum (if neg then -n else n), after)

mutual

/-- Fuel-bounded JSON value parser modelling `json.loads` (integer
fragment); the fuel used at top level exceeds the input length, which
suffices because every recursive call consumes input. -/
def parseValue : Nat → Str → Option (Json × Str)
  | 0, _ => none
  | fuel + 1, cs =>
    let cs := cs.dropWhile isJsonWS
    match cs with
    | [] => none
    | c :: rest =>
      if c == 'n' then
        if leadsWith "ull".toList rest then some (.null, rest.drop 3) else none
      else if c == 't' then
        if leadsWith "rue".toList rest then some (.jbool true, rest.drop 3) else none
      else if c == 'f' then
        if leadsWith "alse".toList rest then some (.jbool false, rest.drop 4) else none
      else if c == '"' then
        match parseStringBody rest with
        | some (s, r) => some (.jstr s, r)
        | none => none
      else if c == '[' then
        match parseArrTail fuel rest with
        | some (xs, r) => some (.jarr xs, r)
        | none => none
      else if c == lbrace then
        match parseObjTail fuel rest with
        | some (fs, r) => some (.jobj fs, r)
        | none => none
      else parseNumber (c :: rest)

/-- Parse the items of a JSON array after the opening bracket. -/
def parseArrTail : Nat → Str → Option (List Json × Str)
  | 0, _ => none
  | fuel + 1, cs =>
    let cs := cs.dropWhile isJsonWS
    match cs with
    | ']' :: rest => some ([], rest)
    | _ =>
      match parseValue fuel cs with
      | none => none
      | some (v, r) =>
        let r := r.dropWhile isJsonWS
        match r with
        | ',' :: r2 =>
          match parseArrTail fuel r2 with
          | some (vs, rr) => some (v :: vs, rr)
          | none => none
        | ']' :: r2 => some ([v], r2)
        | _ => none

/-- Parse the members of a JSON object after the opening brace. -/
def parseObjTail : Nat → Str → Option (List (Str × Json) × Str)
  | 0, _ => none
  | fuel + 1, cs =>
    let cs := cs.dropWhile isJsonWS
    match cs with
    | c :: rest =>
      if c == rbrace then some ([], rest)
      else if c == '"' then
        match parseStringBody rest with
        | none => none
        | some (k, r) =>
          let r := r.dropWhile isJsonWS
          match r with
          | ':' :: r2 =>
            match parseValue fuel r2 with
            | none => none
            | some (v, r3) =>
              let r3 := r3.dropWhile isJsonWS
              match r3 with
              | ',' :: r4 =>
                match parseObjTail fuel r4 with
                | some (fs, rr) => some ((k, v) :: fs, rr)
                | none => none
              | c2 :: r4 =>
                if c2 == rbrace then some ([(k, v)], r4) else none
              | _ => none
          | _ => none
      else none
    | [] => none

end

/-- `json.loads`: parse a complete JSON document, rejecting trailing
garbage (which `json.loads` raises on). -/
def jsonLoads (s : Str) : Option Json :=
  match parseValue (s.length + 1) s with
  | some (v, rest) => if (rest.dropWhile isJsonWS).isEmpty then some v else none
  | none => none

/-- Index of the first occurrence of a character (Python `s.find(c)`,
with absence as `none` instead of -1). -/
def findIdx : Char → Str → Option Nat
  | _, [] => none
  | c, x :: xs =>
    if x == c then some 0
    else
      match findIdx c xs with
      | some i => some (i + 1)
      | none => none

/-- Index of the last occurrence of a character (Python `s.rfind(c)`). -/
def rfindIdx (c : Char) (s : Str) : Option Nat :=
  match findIdx c s.reverse with
  | some i => some (s.length - 1 - i)
  | none => none

/-- Python slice `s[a:b]`. -/
def sliceStr (s : Str) (a b : Nat) : Str := (s.take b).drop a

/-! ## core/intent.py — IntentExtractor -/

/-- Keywords of the open-app rule. -/
def openKws : List Str := ["open".toList, "launch".toList, "start".toList]

/-- Keywords of the web-search rule. -/
def searchKws : List Str :=
  ["search".toList, "find".toList, "look up".toList, "google".toList, "youtube".toList]

/-- Keywords of the run-command rule. -/
def cmdRuleKws : List Str :=
  ["run".toList, "execute".toList, "command".toList, "terminal".toList]

/-- Keywords the command extractor splits on (note: no "terminal"). -/
def cmdKws : List Str := ["run".toList, "execute".toList, "command".toList]

/-- Keywords of the read-file rule. -/
def readKws : List Str := ["read".toList, "show".toList, "display".toList, "file".toList]

/-- `any(keyword in message_lower for keyword in kws)`. -/
def anyKW (kws : List Str) (ml : Str) : Bool := kws.any (fun k => containsSub k ml)

/-- The known multi-word app-name patterns of `_extract_app_name`,
in dict order. -/
def appPatterns : List (Str × Str) :=
  [("vs code".toList, "vscode".toList),
   ("visual studio code".toList, "vscode".toList),
   ("vs".toList, "vscode".toList),
   ("code".toList, "vscode".toList)]

/-- The keyword loop of `IntentExtractor._extract_app_name`: for each
keyword present in the lowered message, inspect the text after it;
continue with the next keyword when that text has no words. -/
def extract_app_name_go : List Str → Str → Option Str
  | [], _ => none
  | k :: ks, ml =>
    if containsSub k ml then
      match splitOnce k ml with
      | none => extract_app_name_go ks ml
      | some (_, afterK) =>
        let remaining := stripWS afterK
        match appPatterns.find? (fun p => leadsWith p.1 remaining) with
        | some p => some p.2
        | none =>
          match wordsOf remaining with
          | [] => extract_app_name_go ks ml
          | w0 :: rest =>
            if (w0 == "the".toList || w0 == "a".toList || w0 == "an".toList)
                && rest.length > 0 then
              if rest.length + 1 ≥ 2 then
                if w0 == "vs".toList && rest.headD [] == "code".toList then
                  some "vscode".toList
                else if rest.length + 1 ≥ 3 &&
                    joinSep " ".toList ((w0 :: rest).take 3) == "visual studio code".toList then
                  some "vscode".toList
                else some (joinSep " ".toList ((w0 :: rest).take 2))
              else some (rest.headD [])
            else
              if rest.length + 1 ≥ 2 && w0 == "vs".toList && rest.headD [] == "code".toList then
                some "vscode".toList
              else some w0
    else extract_app_name_go ks ml

/-- `IntentExtractor._extract_app_name`. -/
def extract_app_name (message : Str) : Option Str :=
  extract_app_name_go openKws (lowerStr message)

/-- The keyword loop of `IntentExtractor._extract_search_query`. -/
def search_query_go : List Str → Str → Str → Str
  | [], _, message => message
  | k :: ks, ml, message =>
    if containsSub k ml then
      match splitOnce k ml with
      | some (_, after) => stripWS after
      | none => search_query_go ks ml message
    else search_query_go ks ml message

/-- `IntentExtractor._extract_search_query`: text after "play" when
present, else text after the first search keyword, else the message. -/
def extract_search_query (message : Str) : Str :=
  let ml := lowerStr message
  if containsSub "play".toList ml then
    match splitOnce "play".toList ml with
    | some (_, after) => stripWS after
    | none => search_query_go searchKws ml message
  else search_query_go searchKws ml message

/-- The keyword loop of `IntentExtractor._extract_command`. -/
def cmd_go : List Str → Str → Option Str
  | [], _ => none
  | k :: ks, ml =>
    if containsSub k ml then
      match splitOnce k ml with
      | some (_, after) => some (stripWS after)
      | none => cmd_go ks ml
    else cmd_go ks ml

/-- `IntentExtractor._extract_command`. -/
def extract_command (message : Str) : Option Str :=
  let ml := lowerStr message
  match cmd_go cmdKws ml with
  | some c => some c
  | none =>
    if leadsWith "$".toList message || leadsWith [btick] message then
      some (stripWS (stripSet ['$', btick] message))
    else none

/-- The file extensions of the first file-path regex. -/
def fileExts : List Str :=
  ["txt".toList, "py".toList, "json".toList, "md".toList, "yaml".toList,
   "yml".toList, "xml".toList, "html".toList, "css".toList, "js".toList]

/-- Single or double quote. -/
def isQuoteCh (c : Char) : Bool := c == '"' || c == squote

/-- Whether `suf` is a final segment of `s`. -/
def endsWith (suf s : Str) : Bool := leadsWith suf.reverse s.reverse

/-- Word character of the regex class backslash-w (ASCII fragment). -/
def isWordCh (c : Char) : Bool := c.isAlphanum || c == '_'

/-- Try the quoted-file-name regex at the current position: an opening
quote, a maximal run of non-quote characters that ends in a dot and a
known extension, and a closing quote; the captured group is that run. -/
def p1At : Str → Option Str
  | [] => none
  | c :: rest =>
    if isQuoteCh c then
      let content := rest.takeWhile (fun x => !isQuoteCh x)
      if content.length < rest.length then
        if !content.isEmpty &&
            fileExts.any (fun e =>
              endsWith ('.' :: e) content && e.length + 2 ≤ content.length) then
          some content
        else none
      else none
    else none

/-- Leftmost search for the quoted-file-name regex. -/
def p1Search : Str → Option Str
  | [] => none
  | c :: cs =>
    match p1At (c :: cs) with
    | some g => some g
    | none => p1Search cs

/-- Backtracking of the tail regex fragment "non-space-plus, dot,
word-character-plus": the last dot inside the maximal non-space run
that is preceded by at least one character and followed by a word
character, paired with the maximal word run after that dot. -/
def lastDotSplit (R : Str) : Option (Str × Str) :=
  match ((List.range R.length).filter (fun d =>
      R.get? d == some '.' && d != 0 &&
      (match R.get? (d + 1) with
       | some c => isWordCh c
       | none => false))).getLast? with
  | some d => some (R.take d, (R.drop (d + 1)).takeWhile isWordCh)
  | none => none

/-- Try the drive-letter path regex at the current position (a word
boundary, a letter, a colon, a slash or backslash, then the tail
fragment). -/
def p2At (prevWord : Bool) : Str → Option Str
  | a :: b :: sl :: rest =>
    if !prevWord && a.isAlpha && b == ':' && (sl == '/' || sl == '\\') then
      let R := rest.takeWhile (fun x => !isSpaceCh x)
      match lastDotSplit R with
      | some (A, run) => some (a :: b :: sl :: (A ++ '.' :: run))
      | none => none
    else none
  | _ => none

/-- Leftmost search for the drive-letter path regex, tracking whether
the previous character is a word character (for the boundary). -/
def p2Search : Bool → Str → Option Str
  | _, [] => none
  | prev, c :: cs =>
    match p2At prev (c :: cs) with
    | some g => some g
    | none => p2Search (isWordCh c) cs

/-- Try the relative path regex at the current position (a word
boundary, a dot or slash, then the tail fragment); the boundary before
a non-word character requires the previous character to be a word
character. -/
def p3At (prevWord : Bool) : Str → Option Str
  | [] => none
  | c :: rest =>
    if prevWord && (c == '.' || c == '/') then
      let R := rest.takeWhile (fun x => !isSpaceCh x)
      match lastDotSplit R with
      | some (A, run) => some (c :: (A ++ '.' :: run))
      | none => none
    else none

/-- Leftmost search for the relative path regex. -/
def p3Search : Bool → Str → Option Str
  | _, [] => none
  | prev, c :: cs =>
    match p3At prev (c :: cs) with
    | some g => some g
    | none => p3Search (isWordCh c) cs

/-- `IntentExtractor._extract_file_path`: the three regex patterns are
tried in order on the original message. -/
def extract_file_path (message : Str) : Option Str :=
  match p1Search message with
  | some g => some g
  | none =>
    match p2Search false message with
    | some g => some g
    | none => p3Search false message

/-- A rule-produced intent: kind, confidence scaled by 100, and
extracted parameters. -/
structure RuleIntent where
  intent : Str
  confidence : Nat
  parameters : List (Str × Json)

/-- The dict a rule-based intent is returned as. -/
def RuleIntent.toJson (r : RuleIntent) : Json :=
  .jobj [("intent".toList, .jstr r.intent),
         ("confidence".toList, .jnum (r.confidence : Int)),
         ("parameters".toList, .jobj r.parameters)]

/-- The open-app rule of `_rule_based_extraction`: fires when an
open/launch/start keyword occurs and an app name is extracted (Python
tests the extracted name for truthiness, so an empty name also falls
through). -/
def open_app_rule (message : Str) : Option RuleIntent :=
  let ml := lowerStr message
  if anyKW openKws ml then
    match extract_app_name message with
    | some app =>
      if app.isEmpty then none
      else some ⟨"open_app".toList, 90, [("app_name".toList, .jstr app)]⟩
    | none => none
  else none

/-- The play rule: any message containing "play" becomes a web search. -/
def play_rule (message : Str) : Option RuleIntent :=
  if containsSub "play".toList (lowerStr message) then
    some ⟨"web_search".toList, 95,
      [("query".toList, .jstr (extract_search_query message))]⟩
  else none

/-- The web-search rule. -/
def search_rule (message : Str) : Option RuleIntent :=
  let ml := lowerStr message
  if anyKW searchKws ml then
    some ⟨"web_search".toList,
      (if containsSub "youtube".toList ml then 90 else 85),
      [("query".toList, .jstr (extract_search_query message))]⟩
  else none

/-- The run-command rule. -/
def command_rule (message : Str) : Option RuleIntent :=
  let ml := lowerStr message
  if anyKW cmdRuleKws ml then
    match extract_command message with
    | some c =>
      if c.isEmpty then none
      else some ⟨"run_command".toList, 90, [("command".toList, .jstr c)]⟩
    | none => none
  else none

/-- The read-file rule. -/
def read_file_rule (message : Str) : Option RuleIntent :=
  let ml := lowerStr message
  if anyKW readKws ml then
    match extract_file_path message with
    | some fp =>
      if fp.isEmpty then none
      else some ⟨"read_file".toList, 80, [("file_path".toList, .jstr fp)]⟩
    | none => none
  else none

/-- The default conversational intent at confidence 0.5. -/
def conversationalIntent : RuleIntent := ⟨"conversational".toList, 50, []⟩

/-- `IntentExtractor._rule_based_extraction`: the rules are tried in
source order, first match wins, default conversational at 0.5. -/
def rule_based_extraction (message : Str) : RuleIntent :=
  match open_app_rule message with
  | some r => r
  | none =>
    match play_rule message with
    | some r => r
    | none =>
      match search_rule message with
      | some r => r
      | none =>
        match command_rule message with
        | some r => r
        | none =>
          match read_file_rule message with
          | some r => r
          | none => conversationalIntent

/-- The fixed prompt template of `_llm_assisted_extraction`. -/
def intent_prompt (message : Str) : Str :=
  "Analyze this user message and extract the intent and parameters.\n\nUser message: \"".toList
    ++ message ++
  "\"\n\nRespond in JSON format with:\n- intent: one of [\"open_app\", \"web_search\", \"run_command\", \"read_file\", \"conversational\", \"multi_step\"]\n- confidence: float between 0 and 1\n- parameters: object with relevant parameters\n\nExamples:\n- \"open vscode\" -> \x7b\"intent\": \"open_app\", \"confidence\": 0.95, \"parameters\": \x7b\"app_name\": \"vscode\"\x7d\x7d\n- \"search python decorators\" -> \x7b\"intent\": \"web_search\", \"confidence\": 0.95, \"parameters\": \x7b\"query\": \"python decorators\"\x7d\x7d\n- \"what\x27s the weather?\" -> \x7b\"intent\": \"conversational\", \"confidence\": 0.9, \"parameters\": \x7b\x7d\x7d\n\nRespond with ONLY valid JSON, no other text:".toList

/-- `IntentExtractor._llm_assisted_extraction`: call the completion
oracle, extract the first-to-last brace slice, parse it as JSON, fall
back to conversational at 0.5 when extraction fails. -/
def llm_assisted_extraction (brain : Str → Str) (message : Str) : Json :=
  let response := brain (intent_prompt message)
  let fallback : Json := conversationalIntent.toJson
  match findIdx lbrace response with
  | none => fallback
  | some a =>
    match rfindIdx rbrace response with
    | none => fallback
    | some b =>
      if a < b + 1 then
        match jsonLoads (sliceStr response a (b + 1)) with
        | some v => v
        | none => fallback
      else fallback

/-- `IntentExtractor.extract_intent`: rule-based first; the LLM-assisted
path runs exactly when the rule confidence is below 0.7. -/
def extract_intent (brain : Str → Str) (message : Str) : Json :=
  if (rule_based_extraction message).confidence < 70 then
    llm_assisted_extraction brain message
  else (rule_based_extraction message).toJson

/-! ## core/planner.py — Planner -/

/-- The fixed intent-to-skill mapping of `Planner._map_intent_to_skill`. -/
def intentSkillMapping : List (Str × Str) :=
  [("open_app".toList, "open_app".toList),
   ("web_search".toList, "web_search".toList),
   ("run_command".toList, "run_command".toList),
   ("read_file".toList, "read_file".toList),
   ("conversational".toList, "conversational".toList)]

/-- `Planner._map_intent_to_skill`: `mapping.get(intent, "conversational")`. -/
def map_intent_to_skill (ikind : Str) : Str :=
  (alookup intentSkillMapping ikind).getD "conversational".toList

/-- The compound-request indicators of `Planner._is_complex_request`. -/
def complexIndicators : List Str :=
  ["and".toList, "then".toList, "after".toList, "also".toList,
   "plus".toList, ",".toList]

/-- `Planner._is_complex_request`: substring containment of any
indicator in the lowered request. -/
def is_complex_request (request : Str) : Bool :=
  complexIndicators.any (fun i => containsSub i (lowerStr request))

/-- The single-step plan built by `Planner.plan` (and duplicated as the
fallback of `Planner._llm_plan`). -/
def simple_plan (ikind : Str) (iparams : Json) : List Json :=
  [.jobj [("step".toList, .jnum 1),
          ("skill".toList, .jstr (map_intent_to_skill ikind)),
          ("parameters".toList, iparams),
          ("description".toList, .jstr ("Execute ".toList ++ ikind))]]

/-- The file-creation keywords checked by `Planner._llm_plan`. -/
def fileKws : List Str :=
  ["create".toList, "write".toList, "make".toList, "file".toList,
   "java".toList, "python".toList, "code".toList, "program".toList]

/-- The file-creation note inserted into the planning prompt. -/
def file_creation_note_text : Str :=
  "\n\nCRITICAL: If the request involves creating or writing a file, you MUST use the \x27write_file\x27 skill with \x27file_path\x27 and \x27content\x27 parameters. NEVER use \x27run_command\x27 with echo for file creation as it doesn\x27t work reliably on Windows.".toList

/-- The write-file example object embedded (twice) in the planning
prompt. -/
def exampleWriteFile : Str :=
  "\x7b\"step\": 2, \"skill\": \"write_file\", \"parameters\": \x7b\"file_path\": \"HelloWorld.java\", \"content\": \"public class HelloWorld \x7b\\n    public static void main(String[] args) \x7b\\n        System.out.println(\\\"Hello, World!\\\");\\n    \x7d\\n\x7d\"\x7d, \"description\": \"Create HelloWorld.java file\"\x7d".toList

/-- The planning prompt template of `Planner._llm_plan`. -/
def plan_prompt (available_skills : List Str) (user_request : Str) (ikind : Str) : Str :=
  let skills_list := joinSep ", ".toList available_skills
  let has_file_creation := fileKws.any (fun k => containsSub k (lowerStr user_request))
  let note := if has_file_creation then file_creation_note_text else []
  "Break down this user request into a step-by-step plan.\n\nUser Request: \"".toList
    ++ user_request
    ++ "\"\nIntent: ".toList ++ ikind
    ++ "\n\nAvailable Skills: ".toList ++ skills_list
    ++ "\n".toList ++ note
    ++ "\n\nCreate a plan with multiple steps. For each step, specify:\n- step: step number\n- skill: which skill to use (must be one of the available skills)\n- parameters: parameters needed for that skill (for write_file, use \"file_path\" and \"content\")\n- description: what this step does\n\nFor file creation, ALWAYS use write_file skill. Example for creating a Java file:\n".toList
    ++ exampleWriteFile
    ++ "\n\nRespond in JSON format as an array of step objects. Example:\n[\n  \x7b\"step\": 1, \"skill\": \"open_app\", \"parameters\": \x7b\"app_name\": \"vscode\"\x7d, \"description\": \"Open VS Code\"\x7d,\n  ".toList
    ++ exampleWriteFile
    ++ "\n]\n\nRespond with ONLY valid JSON array, no other text:".toList

/-- The bracket-slice JSON-array extraction of `Planner._llm_plan`:
`some steps` exactly when the first-to-last bracket slice of the
completion text parses as a JSON list. -/
def extracted_plan (response : Str) : Option (List Json) :=
  match findIdx '[' response with
  | none => none
  | some a =>
    match rfindIdx ']' response with
    | none => none
    | some b =>
      if a < b + 1 then
        match jsonLoads (sliceStr response a (b + 1)) with
        | some (.jarr xs) => some xs
        | some _ => none
        | none => none
      else none

/-- Whether the completion response makes `_llm_plan` return the empty
plan: its bracket slice parses as the empty JSON array. -/
def extractedEmptyPlan (response : Str) : Bool :=
  match extracted_plan response with
  | some [] => true
  | _ => false

/-- `Planner._llm_plan`: whatever list the completion yields — empty
included — else the single-step fallback. -/
def llm_plan (brain : Str → Str) (available_skills : List Str)
    (user_request : Str) (ikind : Str) (iparams : Json) : List Json :=
  match extracted_plan (brain (plan_prompt available_skills user_request ikind)) with
  | some xs => xs
  | none => simple_plan ikind iparams

/-- `Planner.plan`: the LLM path runs when the intent kind is
multi_step or the request is complex; else the single-step plan. -/
def plan (brain : Str → Str) (available_skills : List Str)
    (user_request : Str) (ikind : Str) (iparams : Json) : List Json :=
  if ikind = "multi_step".toList ∨ is_complex_request user_request = true then
    llm_plan brain available_skills user_request ikind iparams
  else simple_plan ikind iparams

/-! ## core/skill_registry.py — SkillRegistry

A loaded skill is its `run` behaviour, a function from the parameter
dict to either a result dict or a raised exception message; the
registry is the name-to-skill map built by the (external, filesystem
driven) loader. -/

/-- A skill `run` method: returns a result or raises. -/
abbrev SkillFun := Json → Except Str Json

/-- The not-found result dict of `SkillRegistry.execute_skill`. -/
def errNotFound (name : Str) : Json :=
  .jobj [("success".toList, .jbool false),
         ("error".toList,
          .jstr ("Skill ".toList ++ squote :: name ++ squote :: " not found".toList))]

/-- The caught-exception result dict of `SkillRegistry.execute_skill`. -/
def errCaught (msg : Str) : Json :=
  .jobj [("success".toList, .jbool false), ("error".toList, .jstr msg)]

/-- `SkillRegistry.execute_skill`: resolve by name, run inside a
try/except converting any raise into a failure dict. -/
def execute_skill (skills : List (Str × SkillFun)) (name : Str) (params : Json) : Json :=
  match alookup skills name with
  | none => errNotFound name
  | some run =>
    match run params with
    | .ok r => r
    | .error e => errCaught e

/-! ## routes/ask.py — execute_plan -/

/-- Integer rendering, Python `str(int)`. -/
def intRepr (n : Int) : Str :=
  if n < 0 then '-' :: Nat.toDigits 10 n.natAbs else Nat.toDigits 10 n.toNat

mutual

/-- Python `repr` of a JSON-like value (single-quoted strings,
capitalised booleans, `None`). -/
def pyRepr : Json → Str
  | .null => "None".toList
  | .jbool true => "True".toList
  | .jbool false => "False".toList
  | .jnum n => intRepr n
  | .jstr s => squote :: s ++ [squote]
  | .jarr xs => '[' :: pyReprItems xs ++ "]".toList
  | .jobj fs => lbrace :: pyReprFields fs ++ [rbrace]

/-- Comma-separated reprs of list items. -/
def pyReprItems : List Json → Str
  | [] => []
  | [x] => pyRepr x
  | x :: xs => pyRepr x ++ ", ".toList ++ pyReprItems xs

/-- Comma-separated reprs of dict items. -/
def pyReprFields : List (Str × Json) → Str
  | [] => []
  | [(k, v)] => squote :: k ++ squote :: ": ".toList ++ pyRepr v
  | (k, v) :: fs =>
    squote :: k ++ squote :: ": ".toList ++ pyRepr v ++ ", ".toList ++ pyReprFields fs

end

/-- Python `str`: identity on strings, `repr` elsewhere. -/
def pyToStr (j : Json) : Str :=
  match j with
  | .jstr s => s
  | other => pyRepr other

/-- `step.get(key, default)`. -/
def getFieldD (step : Json) (key : Str) (dflt : Json) : Json :=
  (jget step key).getD dflt

/-- The skill-name value of a plan step rendered for registry lookup
and error reporting (plan steps produced by the pipeline carry string
names; a non-string value cannot match a registry entry). -/
def jsonAsName (j : Json) : Str :=
  match j with
  | .jstr s => s
  | other => pyToStr other

/-- One entry of the `results` list built by `execute_plan`. -/
structure StepReport where
  stepNo : Json
  description : Json
  result : Json

/-- The per-step body of the `execute_plan` loop: read the step fields
with their defaults, dispatch through the registry, record the report. -/
def run_step (skills : List (Str × SkillFun)) (step : Json) : StepReport :=
  let skill_name := getFieldD step "skill".toList (.jstr "conversational".toList)
  let parameters := getFieldD step "parameters".toList (.jobj [])
  let description := getFieldD step "description".toList (.jstr [])
  let result := execute_skill skills (jsonAsName skill_name) parameters
  ⟨getFieldD step "step".toList (.jnum 0), description, result⟩

/-- The single-successful-step unwrap of `execute_plan`: first present
field among formatted, content, message, stdout; else `str(result)`. -/
def unwrap_result (result : Json) : Json :=
  match jget result "formatted".toList with
  | some v => v
  | none =>
    match jget result "content".toList with
    | some v => v
    | none =>
      match jget result "message".toList with
      | some v => v
      | none =>
        match jget result "stdout".toList with
        | some v => v
        | none => .jstr (pyToStr result)

/-- The per-step lines of the synthesis prompt. -/
def results_text (reports : List StepReport) : Str :=
  joinSep "\n".toList (reports.map (fun r =>
    "Step ".toList ++ pyToStr r.stepNo ++ ": ".toList ++ pyToStr r.description
      ++ "\nResult: ".toList ++ pyToStr r.result ++ "\n".toList))

/-- The synthesis prompt of `execute_plan`. -/
def synthesis_prompt (user_message : Str) (reports : List StepReport) : Str :=
  "The user requested: \"".toList ++ user_message
    ++ "\"\n\nI executed the following steps:\n".toList ++ results_text reports
    ++ "\n\nProvide a clear, concise summary of what was accomplished, combining all the results into a natural response.".toList

/-- `execute_plan` of routes/ask.py: run every step in order through
the registry; a single successful step is unwrapped directly, every
other shape goes through one completion call for synthesis. -/
def execute_plan (skills : List (Str × SkillFun)) (brain : Str → Str)
    (plan_steps : List Json) (user_message : Str) : Json :=
  match plan_steps.map (run_step skills) with
  | [r] =>
    if truthy (jget r.result "success".toList) then unwrap_result r.result
    else .jstr (brain (synthesis_prompt user_message [r]))
  | reports => .jstr (brain (synthesis_prompt user_message reports))

/-- A one-capability registry whose open_app run returns success with
message "Opened X"; instantiates theorems at a concrete capability
behaviour. -/
def openAppStub : List (Str × SkillFun) :=
  [("open_app".toList, fun _ => Except.ok (Json.jobj
    [("success".toList, Json.jbool true),
     ("message".toList, Json.jstr "Opened X".toList)]))]

/-- A concrete open_app plan step. -/
def openStep : Json :=
  Json.jobj [("step".toList, Json.jnum 1),
             ("skill".toList, Json.jstr "open_app".toList),
             ("parameters".toList, Json.jobj []),
             ("description".toList, Json.jstr "Open X".toList)]

/-! ## core/memory.py — MemoryManager

The relational tables are modelled as lists in insertion order (the
source selects without an order clause except for conversation
history, which orders by `created_at`); timestamps are naturals.  The
two store-insert operations of `save_conversation` are passed in as
possibly failing functions, modelling the external database and vector
index whose calls may raise. -/

/-- A user_preferences row. -/
structure PrefRow where
  key : Str
  value : Str
  created_at : Nat
  updated_at : Nat
  deriving DecidableEq

/-- `MemoryManager.save_preference`: update value and updated_at of the
first row carrying the key, else insert a new row. -/
def save_preference : List PrefRow → Str → Str → Nat → List PrefRow
  | [], k, v, now => [⟨k, v, now, now⟩]
  | p :: ps, k, v, now =>
    if p.key = k then ⟨p.key, v, p.created_at, now⟩ :: ps
    else p :: save_preference ps k v now

/-- `MemoryManager.get_preference`: value of the first row carrying the
key. -/
def get_preference : List PrefRow → Str → Option Str
  | [], _ => none
  | p :: ps, k => if p.key = k then some p.value else get_preference ps k

/-- Python dict insertion: replace the value at an existing key, else
append the pair. -/
def dictSet : List (Str × Str) → Str → Str → List (Str × Str)
  | [], k, v => [(k, v)]
  | (k0, v0) :: rest, k, v =>
    if k0 = k then (k0, v) :: rest else (k0, v0) :: dictSet rest k v

/-- `MemoryManager.get_all_preferences`: the dict comprehension over all
rows. -/
def get_all_preferences (st : List PrefRow) : List (Str × Str) :=
  st.foldl (fun d p => dictSet d p.key p.value) []

/-- Whether some row carries the key. -/
def hasKeyRow (k : Str) : List PrefRow → Bool
  | [] => false
  | p :: ps => p.key == k || hasKeyRow k ps

/-- Number of entries of a dict carrying the key. -/
def countKey (k : Str) : List (Str × Str) → Nat
  | [] => 0
  | (k0, _) :: rest => (if k0 = k then 1 else 0) + countKey k rest

/-- A conversation_history row; skills_used holds the JSON dump or NULL
exactly as stored. -/
structure ConvRow where
  user_message : Str
  assistant_response : Str
  intent : Option Str
  skills_used : Option Str
  created_at : Nat
  deriving DecidableEq

/-- A semantic-memory entry: id, document and the three metadata
fields written by `save_conversation`. -/
structure SemEntry where
  id : Str
  document : Str
  md_intent : Str
  md_timestamp : Str
  md_skills : Str
  deriving DecidableEq

/-- The two stores behind the memory facade. -/
structure MemoryState where
  conversation_history : List ConvRow
  semantic : List SemEntry
  deriving DecidableEq

/-- `json.dumps` of a list of strings. -/
def jsonDumpStrList (l : List Str) : Str :=
  '[' :: joinSep ", ".toList (l.map (fun s => '"' :: s ++ ['"'])) ++ "]".toList

/-- The ConversationHistory row built by `save_conversation`:
`json.dumps(skills_used) if skills_used else None` (an empty list is
falsy and stores NULL). -/
def convRowOf (now : Nat) (user_message assistant_response : Str)
    (intent : Option Str) (skills_used : Option (List Str)) : ConvRow :=
  ⟨user_message, assistant_response, intent,
   (match skills_used with
    | some l => if l.isEmpty then none else some (jsonDumpStrList l)
    | none => none), now⟩

/-- The semantic-memory entry built by `save_conversation`: the
concatenated "User/Assistant" text, the metadata and the time-derived
id. -/
def semEntryOf (nowIso nowTs : Str) (user_message assistant_response : Str)
    (intent : Option Str) (skills_used : Option (List Str)) : SemEntry :=
  ⟨"conv_".toList ++ nowTs,
   "User: ".toList ++ user_message ++ "\nAssistant: ".toList ++ assistant_response,
   intent.getD "unknown".toList, nowIso,
   (match skills_used with
    | some l => if l.isEmpty then [] else jsonDumpStrList l
    | none => [])⟩

/-- `MemoryManager.save_conversation`: build the row, insert it into
the relational store, then index the concatenated text into the
semantic store; an exception from either phase propagates (second
component) and ends the function there.  `now`/`nowIso`/`nowTs` model
the `datetime.utcnow()` readings used for the row timestamp, the
metadata timestamp and the time-derived id. -/
def save_conversation
    (relInsert : List ConvRow → ConvRow → Except Str (List ConvRow))
    (semInsert : List SemEntry → SemEntry → Except Str (List SemEntry))
    (now : Nat) (nowIso nowTs : Str) (st : MemoryState)
    (user_message assistant_response : Str)
    (intent : Option Str) (skills_used : Option (List Str)) :
    MemoryState × Option Str :=
  match relInsert st.conversation_history
      (convRowOf now user_message assistant_response intent skills_used) with
  | .error e => (st, some e)
  | .ok hist2 =>
    match semInsert st.semantic
        (semEntryOf nowIso nowTs user_message assistant_response intent skills_used) with
    | .error e => ({ conversation_history := hist2, semantic := st.semantic }, some e)
    | .ok sem2 => ({ conversation_history := hist2, semantic := sem2 }, none)

/-- The succeeding relational insert: an SQL insert appends a row. -/
def relAppend (hist : List ConvRow) (row : ConvRow) : Except Str (List ConvRow) :=
  .ok (hist ++ [row])

/-- The succeeding semantic insert. -/
def semAppend (sem : List SemEntry) (entry : SemEntry) : Except Str (List SemEntry) :=
  .ok (sem ++ [entry])

/-- The dict returned per row by `get_recent_conversations`; the stored
skills JSON is decoded back to a list (always well-formed for rows the
pipeline wrote), and `created_at` stands for its isoformat rendering. -/
structure OutConv where
  user_message : Str
  assistant_response : Str
  intent : Option Str
  skills_used : List Json
  created_at : Nat

/-- `json.loads(c.skills_used) if c.skills_used else []`. -/
def decodeSkills : Option Str → List Json
  | some s =>
    match jsonLoads s with
    | some (.jarr xs) => xs
    | _ => []
  | none => []

/-- Row-to-dict conversion of `get_recent_conversations`. -/
def rowToDict (r : ConvRow) : OutConv :=
  ⟨r.user_message, r.assistant_response, r.intent,
   decodeSkills r.skills_used, r.created_at⟩

/-- Insertion into a created_at-descending list. -/
def insertByDesc (r : ConvRow) : List ConvRow → List ConvRow
  | [] => [r]
  | y :: ys =>
    if y.created_at ≤ r.created_at then r :: y :: ys else y :: insertByDesc r ys

/-- The `order_by(created_at.desc())` select. -/
def sortDesc (l : List ConvRow) : List ConvRow := l.foldr insertByDesc []

/-- `MemoryManager.get_recent_conversations`: order by created_at
descending, take the limit, reverse into chronological order, convert
to dicts. -/
def get_recent_conversations (hist : List ConvRow) (limit : Nat) : List OutConv :=
  (((sortDesc hist).take limit).reverse).map rowToDict

/-- Strictly increasing row timestamps (each insert happens after the
previous one). -/
def strictAsc : List ConvRow → Bool
  | [] => true
  | [_] => true
  | a :: b :: t => decide (a.created_at < b.created_at) && strictAsc (b :: t)

/-- A relational insert that always raises (models an unreachable
database). -/
def relFailing (msg : Str) : List ConvRow → ConvRow → Except Str (List ConvRow) :=
  fun _ _ => .error msg

/-- Concrete history rows for instantiating the recency theorems. -/
def convRow1 : ConvRow := ⟨"u1".toList, "a1".toList, none, none, 1⟩

/-- Second concrete history row. -/
def convRow2 : ConvRow := ⟨"u2".toList, "a2".toList, none, none, 2⟩

/-- Third concrete history row. -/
def convRow3 : ConvRow := ⟨"u3".toList, "a3".toList, none, none, 3⟩

/-! ## General lemmas about the string helpers -/

theorem leadsWith_iff (p : Str) : ∀ s : Str, leadsWith p s = true ↔ p <+: s := by
  induction p with
  | nil => intro s; simp [leadsWith]
  | cons a ps ih =>
    intro s
    cases s with
    | nil =>
      simp [leadsWith]
    | cons c cs =>
      simp [leadsWith, List.cons_prefix_cons, ih cs, Bool.and_eq_true, beq_iff_eq,
        and_comm]

theorem containsSub_iff (p : Str) : ∀ s : Str, containsSub p s = true ↔ p <:+: s := by
  intro s
  induction s with
  | nil =>
    cases p with
    | nil => simp [containsSub, leadsWith]
    | cons a ps => simp [containsSub, leadsWith]
  | cons c cs ih =>
    simp [containsSub, Bool.or_eq_true, leadsWith_iff, ih, List.infix_cons_iff]

theorem containsSub_trans {a b c : Str} (h1 : containsSub a b = true)
    (h2 : containsSub b c = true) : containsSub a c = true := by
  rw [containsSub_iff] at h1 h2 ⊢
  exact h1.trans h2

theorem containsSub_lowerStr {pat s : Str} (hp : lowerStr pat = pat)
    (h : containsSub pat s = true) : containsSub pat (lowerStr s) = true := by
  rw [containsSub_iff] at h ⊢
  obtain ⟨t, u, htu⟩ := h
  refine ⟨t.map Char.toLower, u.map Char.toLower, ?_⟩
  have hmap := congrArg (List.map Char.toLower) htu
  simp only [List.map_append] at hmap
  have hpat : pat.map Char.toLower = pat := hp
  rw [hpat] at hmap
  exact hmap

/-! ## Claim theorems -/

/-- C5: for every utterance whose rule-based classification has
confidence at least 0.7, extract_intent returns exactly the rule-based
intent, for every completion oracle: the completion capability is
never consulted on this path and the result is a pure function of the
utterance alone. -/
theorem c5_rule_confident_no_completion (message : Str)
    (h : 70 ≤ (rule_based_extraction message).confidence) (b1 b2 : Str → Str) :
    extract_intent b1 message = (rule_based_extraction message).toJson ∧
    extract_intent b1 message = extract_intent b2 message := by
  have hb : ∀ b : Str → Str,
      extract_intent b message = (rule_based_extraction message).toJson := by
    intro b
    unfold extract_intent
    rw [if_neg (Nat.not_lt.mpr h)]
  exact ⟨hb b1, (hb b1).trans (hb b2).symm⟩

/-- Witness for C5 at the utterance "open vscode" (rule confidence
0.9), with two different completion oracles. -/
theorem c5_witness :
    70 ≤ (rule_based_extraction "open vscode".toList).confidence ∧
    extract_intent (fun _ => []) "open vscode".toList
      = (rule_based_extraction "open vscode".toList).toJson ∧
    extract_intent (fun _ => []) "open vscode".toList
      = extract_intent (fun p => p) "open vscode".toList :=
  ⟨by decide,
    (c5_rule_confident_no_completion "open vscode".toList (by decide)
      (fun _ => []) (fun p => p)).1,
    (c5_rule_confident_no_completion "open vscode".toList (by decide)
      (fun _ => []) (fun p => p)).2⟩

/-- C1 counterexample: the utterance "start playing jazz" contains
"play" but is classified open_app (the open/launch/start rule has
higher priority and extracts the app name "playing"), not web_search. -/
theorem c1_counterexample :
    containsSub "play".toList (lowerStr "start playing jazz".toList) = true ∧
    jgetStr (extract_intent (fun _ => []) "start playing jazz".toList) "intent".toList
      = some "open_app".toList ∧
    (some "open_app".toList : Option Str) ≠ some "web_search".toList :=
  ⟨by decide, by decide, by decide⟩

/-- C1 amended: an utterance containing "play" resolves to a
web_search intent at confidence 0.95 with the extracted query,
provided the earlier open/launch/start rule does not fire (no app name
is produced); no completion oracle is consulted. -/
theorem c1_amended_play_web_search (message : Str) (brain : Str → Str)
    (h1 : containsSub "play".toList (lowerStr message) = true)
    (h2 : (open_app_rule message).isNone = true) :
    extract_intent brain message =
      (RuleIntent.mk "web_search".toList 95
        [("query".toList, Json.jstr (extract_search_query message))]).toJson := by
  have ho : open_app_rule message = none := Option.isNone_iff_eq_none.mp h2
  have hplay : play_rule message =
      some ⟨"web_search".toList, 95,
        [("query".toList, Json.jstr (extract_search_query message))]⟩ := by
    unfold play_rule
    rw [if_pos h1]
  have hr : rule_based_extraction message =
      ⟨"web_search".toList, 95,
        [("query".toList, Json.jstr (extract_search_query message))]⟩ := by
    unfold rule_based_extraction
    rw [ho, hplay]
  unfold extract_intent
  rw [hr, if_neg (show ¬(95 : Nat) < 70 by decide)]

/-- Witness for the amended C1 at "play despacito". -/
theorem c1_witness :
    containsSub "play".toList (lowerStr "play despacito".toList) = true ∧
    (open_app_rule "play despacito".toList).isNone = true ∧
    extract_intent (fun _ => []) "play despacito".toList
      = (RuleIntent.mk "web_search".toList 95
          [("query".toList, Json.jstr (extract_search_query "play despacito".toList))]).toJson :=
  ⟨by decide, by decide, c1_amended_play_web_search _ _ (by decide) (by decide)⟩

/-- C2 counterexample: when the completion capability returns the text
"[]" on the LLM-decomposition path, `plan` returns the empty list. -/
theorem c2_counterexample :
    plan (fun _ => "[]".toList) [] "spin up everything".toList
      "multi_step".toList (.jobj []) = [] := rfl

/-- C2 amended: `plan` returns a non-empty list unless the
LLM-decomposition path is taken and the completion text's bracket
slice parses as the empty JSON array; in every other case — rule path,
parse failure fallback, or a non-empty parsed array — at least one
step is returned. -/
theorem c2_amended_plan_nonempty (brain : Str → Str) (skills : List Str)
    (req ikind : Str) (iparams : Json)
    (h : extractedEmptyPlan (brain (plan_prompt skills req ikind)) = false) :
    plan brain skills req ikind iparams ≠ [] := by
  unfold plan
  split
  · unfold llm_plan
    cases hE : extracted_plan (brain (plan_prompt skills req ikind)) with
    | none => simp [simple_plan]
    | some xs =>
      cases xs with
      | nil =>
        exfalso
        unfold extractedEmptyPlan at h
        rw [hE] at h
        simp at h
      | cons a as => simp
  · simp [simple_plan]

/-- Witness for the amended C2: a completion oracle with no JSON array
in its output, on the multi_step path. -/
theorem c2_witness :
    extractedEmptyPlan ((fun _ => "no json here".toList)
      (plan_prompt [] "do this and that".toList "multi_step".toList)) = false ∧
    plan (fun _ => "no json here".toList) [] "do this and that".toList
      "multi_step".toList (.jobj []) ≠ [] :=
  ⟨by decide, c2_amended_plan_nonempty _ _ _ _ _ (by decide)⟩

/-- C6: for a non-multi_step intent kind and an utterance with no
compound indicator, `plan` is exactly the one-step plan whose skill is
the fixed mapping of the kind; the conversational kind maps to the
conversational capability and so does every kind outside the mapping. -/
theorem c6_single_step_mapping (brain : Str → Str) (skills : List Str)
    (u ikind : Str) (iparams : Json)
    (h1 : ikind ≠ "multi_step".toList) (h2 : is_complex_request u = false) :
    plan brain skills u ikind iparams =
      [Json.jobj [("step".toList, Json.jnum 1),
                  ("skill".toList, Json.jstr (map_intent_to_skill ikind)),
                  ("parameters".toList, iparams),
                  ("description".toList, Json.jstr ("Execute ".toList ++ ikind))]] ∧
    map_intent_to_skill "conversational".toList = "conversational".toList ∧
    (∀ k, alookup intentSkillMapping k = none →
      map_intent_to_skill k = "conversational".toList) := by
  refine ⟨?_, by decide, ?_⟩
  · unfold plan
    rw [if_neg]
    · rfl
    · rintro (hc | hc)
      · exact h1 hc
      · rw [h2] at hc
        exact Bool.noConfusion hc
  · intro k hk
    unfold map_intent_to_skill
    rw [hk]
    rfl

/-- Witness for C6 at kind open_app and the utterance "open vscode". -/
theorem c6_witness :
    ("open_app".toList ≠ "multi_step".toList) ∧
    is_complex_request "open vscode".toList = false ∧
    plan (fun _ => []) [] "open vscode".toList "open_app".toList (.jobj []) =
      [Json.jobj [("step".toList, Json.jnum 1),
                  ("skill".toList, Json.jstr (map_intent_to_skill "open_app".toList)),
                  ("parameters".toList, Json.jobj []),
                  ("description".toList, Json.jstr ("Execute ".toList ++ "open_app".toList))]] :=
  ⟨by decide, by decide,
    (c6_single_step_mapping _ _ _ _ _ (by decide) (by decide)).1⟩

/-- C10: compound detection is substring containment on the lowered
utterance, so any utterance containing "command" (which contains
"and") is complex and is routed to the LLM-decomposition path, never
to the direct single-step branch. -/
theorem c10_compound_substring_routing (brain : Str → Str) (skills : List Str)
    (u ikind : Str) (iparams : Json)
    (h : containsSub "command".toList u = true ∨ is_complex_request u = true) :
    is_complex_request u = true ∧
    plan brain skills u ikind iparams = llm_plan brain skills u ikind iparams := by
  have hc : is_complex_request u = true := by
    cases h with
    | inr h => exact h
    | inl h =>
      have h2 : containsSub "command".toList (lowerStr u) = true :=
        containsSub_lowerStr (by decide) h
      have h3 : containsSub "and".toList (lowerStr u) = true :=
        containsSub_trans (by decide) h2
      unfold is_complex_request
      apply List.any_eq_true.mpr
      exact ⟨"and".toList, by decide, h3⟩
  refine ⟨hc, ?_⟩
  unfold plan
  rw [if_pos (Or.inr hc)]

/-- Witness for C10 at the utterance "run the status command". -/
theorem c10_witness :
    containsSub "command".toList "run the status command".toList = true ∧
    is_complex_request "run the status command".toList = true ∧
    plan (fun _ => []) [] "run the status command".toList "run_command".toList (.jobj [])
      = llm_plan (fun _ => []) [] "run the status command".toList "run_command".toList (.jobj []) :=
  ⟨by decide,
    (c10_compound_substring_routing (fun _ => []) [] _ "run_command".toList (.jobj [])
      (Or.inl (by decide))).1,
    (c10_compound_substring_routing (fun _ => []) [] _ "run_command".toList (.jobj [])
      (Or.inl (by decide))).2⟩

/-- C4 counterexample: the unknown-capability error message produced by
the registry reads "Skill 'nonexistent' not found", not the claimed
"capability 'nonexistent' not found". -/
theorem c4_counterexample :
    jgetStr (execute_skill [] "nonexistent".toList (.jobj [])) "error".toList
      = some ("Skill ".toList ++ squote :: "nonexistent".toList
          ++ squote :: " not found".toList) ∧
    jgetBool (execute_skill [] "nonexistent".toList (.jobj [])) "success".toList
      = some false ∧
    ("Skill ".toList ++ squote :: "nonexistent".toList ++ squote :: " not found".toList : Str)
      ≠ "capability ".toList ++ squote :: "nonexistent".toList ++ squote :: " not found".toList :=
  ⟨by decide, by decide, by decide⟩

/-- C4 amended: execute_skill is total and never raises — an unknown
name yields exactly the failure dict with message "Skill '<name>' not
found", an exception raised by the capability run is converted at the
registry boundary to a failure dict carrying its message, and a normal
result is passed through. -/
theorem c4_amended_total_registry (skills : List (Str × SkillFun))
    (name : Str) (params : Json) :
    (alookup skills name = none →
      execute_skill skills name params = errNotFound name) ∧
    (∀ f, alookup skills name = some f →
      (∀ e, f params = .error e → execute_skill skills name params = errCaught e) ∧
      (∀ r, f params = .ok r → execute_skill skills name params = r)) := by
  constructor
  · intro h
    unfold execute_skill
    rw [h]
  · intro f hf
    constructor
    · intro e he
      unfold execute_skill
      simp only [hf, he]
    · intro r hr
      unfold execute_skill
      simp only [hf, hr]

/-- Witness for the amended C4: an empty registry queried for
"nonexistent", and a registry whose only capability raises. -/
theorem c4_witness :
    execute_skill [] "nonexistent".toList (.jobj []) = errNotFound "nonexistent".toList ∧
    execute_skill [("boom".toList, fun _ => .error "kaboom".toList)]
        "boom".toList (.jobj [])
      = errCaught "kaboom".toList :=
  ⟨(c4_amended_total_registry [] "nonexistent".toList (.jobj [])).1 rfl,
   ((c4_amended_total_registry [("boom".toList, fun _ => .error "kaboom".toList)]
      "boom".toList (.jobj [])).2 _ rfl).1 "kaboom".toList rfl⟩

/-- C7: a plan of exactly one step whose result is truthy on success is
answered by the field-precedence unwrap of that result, and the
completion oracle is never consulted (the output is the same for any
two oracles). -/
theorem c7_single_success_unwrap (skills : List (Str × SkillFun))
    (brain : Str → Str) (st : Json) (msg : Str)
    (h : truthy (jget (run_step skills st).result "success".toList) = true) :
    execute_plan skills brain [st] msg = unwrap_result (run_step skills st).result ∧
    (∀ b1 b2 : Str → Str,
      execute_plan skills b1 [st] msg = execute_plan skills b2 [st] msg) := by
  have key : ∀ b : Str → Str,
      execute_plan skills b [st] msg = unwrap_result (run_step skills st).result := by
    intro b
    show (if truthy (jget (run_step skills st).result "success".toList) = true then
        unwrap_result (run_step skills st).result
      else Json.jstr (b (synthesis_prompt msg [run_step skills st]))) = _
    rw [if_pos h]
  exact ⟨key brain, fun b1 b2 => (key b1).trans (key b2).symm⟩

/-- Witness for C7: a registry whose open_app capability returns
success with message "Opened X"; the single-step plan yields exactly
"Opened X" and is oracle-independent. -/
theorem c7_witness :
    truthy (jget (run_step openAppStub openStep).result "success".toList) = true ∧
    execute_plan openAppStub (fun _ => []) [openStep] "open X".toList
      = Json.jstr "Opened X".toList ∧
    (∀ b1 b2 : Str → Str,
      execute_plan openAppStub b1 [openStep] "open X".toList
        = execute_plan openAppStub b2 [openStep] "open X".toList) :=
  ⟨by decide,
    (c7_single_success_unwrap openAppStub (fun _ => []) openStep "open X".toList
      (by decide)).1.trans rfl,
    (c7_single_success_unwrap openAppStub (fun _ => []) openStep "open X".toList
      (by decide)).2⟩

/-- C3 counterexample: with a relational insert that raises and a
semantic insert that always succeeds by appending, save_conversation
propagates the relational failure and leaves the semantic store empty:
the semantic phase is not attempted when the relational phase fails. -/
theorem c3_counterexample :
    save_conversation (relFailing "database unavailable".toList) semAppend 0 [] []
        ⟨[], []⟩ "hi".toList "hello".toList none none
      = (⟨[], []⟩, some "database unavailable".toList) ∧
    (save_conversation (relFailing "database unavailable".toList) semAppend 0 [] []
        ⟨[], []⟩ "hi".toList "hello".toList none none).1.semantic = [] :=
  ⟨rfl, rfl⟩

/-- C3 amended: save_conversation is two-phase and sequential — a
relational-phase failure propagates immediately, leaving both stores
untouched and never attempting the semantic phase (the outcome is
independent of the semantic-insert behaviour); when the relational
phase succeeds, the semantic phase is attempted, and its failure
propagates without undoing the relational insert. -/
theorem c3_amended_sequential_phases
    (relInsert : List ConvRow → ConvRow → Except Str (List ConvRow))
    (semInsert : List SemEntry → SemEntry → Except Str (List SemEntry))
    (now : Nat) (nowIso nowTs : Str) (st : MemoryState)
    (um ar : Str) (it : Option Str) (sk : Option (List Str)) :
    (∀ e, relInsert st.conversation_history (convRowOf now um ar it sk) = .error e →
      save_conversation relInsert semInsert now nowIso nowTs st um ar it sk
          = (st, some e) ∧
      (∀ semI2, save_conversation relInsert semI2 now nowIso nowTs st um ar it sk
          = save_conversation relInsert semInsert now nowIso nowTs st um ar it sk)) ∧
    (∀ hist2, relInsert st.conversation_history (convRowOf now um ar it sk) = .ok hist2 →
      (∀ e, semInsert st.semantic (semEntryOf nowIso nowTs um ar it sk) = .error e →
        save_conversation relInsert semInsert now nowIso nowTs st um ar it sk
          = (⟨hist2, st.semantic⟩, some e)) ∧
      (∀ sem2, semInsert st.semantic (semEntryOf nowIso nowTs um ar it sk) = .ok sem2 →
        save_conversation relInsert semInsert now nowIso nowTs st um ar it sk
          = (⟨hist2, sem2⟩, none))) := by
  constructor
  · intro e he
    constructor
    · unfold save_conversation
      rw [he]
    · intro semI2
      unfold save_conversation
      rw [he]
  · intro hist2 hok
    constructor
    · intro e he
      unfold save_conversation
      rw [hok, he]
    · intro sem2 hs
      unfold save_conversation
      rw [hok, hs]

/-- Witness for the amended C3: a failing relational phase short
circuits; succeeding phases append to both stores. -/
theorem c3_witness :
    save_conversation (relFailing "db down".toList) semAppend 1 [] [] ⟨[], []⟩
        "a".toList "b".toList none none
      = (⟨[], []⟩, some "db down".toList) ∧
    save_conversation relAppend semAppend 1 [] [] ⟨[], []⟩
        "a".toList "b".toList none none
      = (⟨[convRowOf 1 "a".toList "b".toList none none],
          [semEntryOf [] [] "a".toList "b".toList none none]⟩, none) :=
  ⟨((c3_amended_sequential_phases (relFailing "db down".toList) semAppend 1 [] []
      ⟨[], []⟩ "a".toList "b".toList none none).1 _ rfl).1,
   ((c3_amended_sequential_phases relAppend semAppend 1 [] []
      ⟨[], []⟩ "a".toList "b".toList none none).2 _ rfl).2 _ rfl⟩

/-! ## Lemmas about the conversation-history ordering -/

theorem insertByDesc_all_lt (r : ConvRow) :
    ∀ m : List ConvRow, (∀ y ∈ m, r.created_at < y.created_at) →
      insertByDesc r m = m ++ [r] := by
  intro m
  induction m with
  | nil => intro _; rfl
  | cons y ys ih =>
    intro h
    unfold insertByDesc
    rw [if_neg]
    · rw [ih (fun z hz => h z (List.mem_cons_of_mem _ hz))]
      rfl
    · have := h y (List.mem_cons_self _ _)
      omega

theorem strictAsc_tail {a : ConvRow} {t : List ConvRow}
    (h : strictAsc (a :: t) = true) : strictAsc t = true := by
  cases t with
  | nil => rfl
  | cons b t2 =>
    unfold strictAsc at h
    simp only [Bool.and_eq_true] at h
    exact h.2

theorem strictAsc_head_lt : ∀ {t : List ConvRow} {a : ConvRow},
    strictAsc (a :: t) = true → ∀ y ∈ t, a.created_at < y.created_at := by
  intro t
  induction t with
  | nil =>
    intro a _ y hy
    cases hy
  | cons b t2 ih =>
    intro a h y hy
    have hab : a.created_at < b.created_at := by
      unfold strictAsc at h
      simp only [Bool.and_eq_true] at h
      exact of_decide_eq_true h.1
    cases hy with
    | head => exact hab
    | tail _ hy2 => exact Nat.lt_trans hab (ih (strictAsc_tail h) y hy2)

theorem sortDesc_eq_reverse : ∀ l : List ConvRow,
    strictAsc l = true → sortDesc l = l.reverse := by
  intro l
  induction l with
  | nil => intro _; rfl
  | cons a t ih =>
    intro h
    show insertByDesc a (sortDesc t) = (a :: t).reverse
    rw [ih (strictAsc_tail h),
      insertByDesc_all_lt a t.reverse
        (fun y hy => strictAsc_head_lt h y (List.mem_reverse.mp hy)),
      List.reverse_cons]

theorem dropLenAppend {α : Type} : ∀ (l1 l2 : List α), (l1 ++ l2).drop l1.length = l2 := by
  intro l1 l2
  induction l1 with
  | nil => rfl
  | cons a t ih => exact ih

theorem get_recent_spec (hist : List ConvRow) (n : Nat) (h : strictAsc hist = true) :
    get_recent_conversations hist n = (hist.drop (hist.length - n)).map rowToDict := by
  unfold get_recent_conversations
  rw [sortDesc_eq_reverse hist h, ← List.rtake_eq_reverse_take_reverse]
  rfl

/-- C8: on a history with strictly increasing timestamps, appending a
record and asking for the most recent conversation returns exactly
that record, and asking for any n returns the n most recently
appended records in chronological (oldest-first) order — the final
segment of the store in insertion order. -/
theorem c8_recent_conversations (hist : List ConvRow) (r : ConvRow)
    (h : strictAsc (hist ++ [r]) = true) :
    get_recent_conversations (hist ++ [r]) 1 = [rowToDict r] ∧
    (∀ n, get_recent_conversations (hist ++ [r]) n
        = ((hist ++ [r]).drop (hist.length + 1 - n)).map rowToDict) := by
  have hlen : (hist ++ [r]).length = hist.length + 1 := by simp
  constructor
  · rw [get_recent_spec _ _ h, hlen]
    have h1 : hist.length + 1 - 1 = hist.length := rfl
    rw [h1, dropLenAppend]
    rfl
  · intro n
    rw [get_recent_spec _ _ h, hlen]

/-- Witness for C8 on a three-record history with timestamps 1, 2, 3. -/
theorem c8_witness :
    strictAsc ([convRow1, convRow2] ++ [convRow3]) = true ∧
    get_recent_conversations ([convRow1, convRow2] ++ [convRow3]) 1
      = [rowToDict convRow3] ∧
    get_recent_conversations ([convRow1, convRow2] ++ [convRow3]) 2
      = (([convRow1, convRow2] ++ [convRow3]).drop
          ([convRow1, convRow2].length + 1 - 2)).map rowToDict :=
  ⟨by decide,
    (c8_recent_conversations [convRow1, convRow2] convRow3 (by decide)).1,
    (c8_recent_conversations [convRow1, convRow2] convRow3 (by decide)).2 2⟩

/-! ## Lemmas about preference upsert -/

theorem get_preference_save (st : List PrefRow) (k v : Str) (t : Nat) :
    get_preference (save_preference st k v t) k = some v := by
  induction st with
  | nil => simp [save_preference, get_preference]
  | cons p ps ih =>
    by_cases hp : p.key = k
    · simp [save_preference, hp, get_preference]
    · simp [save_preference, hp, get_preference, ih]

theorem hasKeyRow_save (st : List PrefRow) (k v : Str) (t : Nat) :
    hasKeyRow k (save_preference st k v t) = true := by
  induction st with
  | nil => simp [save_preference, hasKeyRow]
  | cons p ps ih =>
    by_cases hp : p.key = k
    · simp [save_preference, hp, hasKeyRow]
    · simp [save_preference, hp, hasKeyRow, ih]

theorem countKey_dictSet_ne (k k' v : Str) (hne : k' ≠ k) :
    ∀ d : List (Str × Str), countKey k (dictSet d k' v) = countKey k d := by
  intro d
  induction d with
  | nil => simp [dictSet, countKey, hne]
  | cons kv rest ih =>
    obtain ⟨k0, v0⟩ := kv
    by_cases h0 : k0 = k'
    · simp [dictSet, h0, countKey]
    · simp [dictSet, h0, countKey, ih]

theorem countKey_dictSet_self (k v : Str) :
    ∀ d : List (Str × Str), countKey k (dictSet d k v)
      = if countKey k d = 0 then 1 else countKey k d := by
  intro d
  induction d with
  | nil => simp [dictSet, countKey]
  | cons kv rest ih =>
    obtain ⟨k0, v0⟩ := kv
    by_cases h0 : k0 = k
    · simp [dictSet, h0, countKey]
    · simp [dictSet, h0, countKey, ih]

theorem countKey_fold (k : Str) : ∀ (st : List PrefRow) (d : List (Str × Str)),
    countKey k d ≤ 1 →
    countKey k (st.foldl (fun d p => dictSet d p.key p.value) d)
      = if hasKeyRow k st = true ∨ countKey k d ≠ 0 then 1 else 0 := by
  intro st
  induction st with
  | nil =>
    intro d hd
    simp only [List.foldl_nil, hasKeyRow]
    split
    · rename_i hcond
      cases hcond with
      | inl hfalse => exact absurd hfalse (by simp)
      | inr hnz => omega
    · rename_i hcond
      push_neg at hcond
      exact hcond.2
  | cons p ps ih =>
    intro d hd
    show countKey k (ps.foldl (fun d p => dictSet d p.key p.value)
      (dictSet d p.key p.value)) = _
    by_cases hp : p.key = k
    · have hone : countKey k (dictSet d p.key p.value) = 1 := by
        rw [hp, countKey_dictSet_self]
        split
        · rfl
        · omega
      rw [ih _ (by omega)]
      rw [hone]
      have hL : hasKeyRow k (p :: ps) = true := by
        unfold hasKeyRow
        simp [hp]
      rw [if_pos (Or.inr (by omega)), if_pos (Or.inl hL)]
    · have hsame : countKey k (dictSet d p.key p.value) = countKey k d :=
        countKey_dictSet_ne k p.key p.value hp d
      rw [ih _ (by omega)]
      rw [hsame]
      have hL : hasKeyRow k (p :: ps) = hasKeyRow k ps := by
        show (p.key == k || hasKeyRow k ps) = hasKeyRow k ps
        rw [beq_eq_false_iff_ne.mpr hp, Bool.false_or]
      rw [hL]

/-- C9: upserting a key twice then reading it back yields the second
value, and the all-preferences dict contains exactly one entry for the
key — the second save updates the existing row instead of inserting a
duplicate. -/
theorem c9_preference_upsert_roundtrip (st : List PrefRow) (k v1 v2 : Str)
    (t1 t2 : Nat) :
    get_preference (save_preference (save_preference st k v1 t1) k v2 t2) k = some v2 ∧
    countKey k (get_all_preferences
      (save_preference (save_preference st k v1 t1) k v2 t2)) = 1 := by
  refine ⟨get_preference_save _ _ _ _, ?_⟩
  unfold get_all_preferences
  rw [countKey_fold k _ [] (Nat.zero_le 1)]
  rw [if_pos (Or.inl (hasKeyRow_save _ _ _ _))]

end Jarvis
